import Mathlib

/-!
Verification of the task-resolution and event-reconstruction core of
`cargo-rtic-scope` (files `cargo-rtic-scope/src/recovery.rs` and
`cortex-m-rtic-trace/macros/src/lib.rs`), shallowly embedded in Lean.

Rust `BTreeMap`s are modelled as association lists with insert-replaces
semantics, `u8`/`u16`/`usize` values as `Nat` (no overflow occurs in the
modelled code paths), `chrono` timestamps as nanosecond counts in `Int`,
and `f64` arithmetic in the timestamp computation as exact rational
arithmetic. Rust panics and `Result::Err` outcomes are modelled with
`Option`/`Except`.
-/

namespace RticScope

/-! ## A `BTreeMap` model: association lists where insertion replaces -/

/-- `BTreeMap::insert`: replace the binding of `k` if present, else append. -/
def bmInsert {K V : Type} [DecidableEq K] : List (K × V) → K → V → List (K × V)
  | [], k, v => [(k, v)]
  | (k', v') :: rest, k, v =>
    if k = k' then (k, v) :: rest else (k', v') :: bmInsert rest k v

/-- `BTreeMap::get`. -/
def bmGet {K V : Type} [DecidableEq K] : List (K × V) → K → Option V
  | [], _ => none
  | (k', v') :: rest, k => if k = k' then some v' else bmGet rest k

/-- `FromIterator for BTreeMap`: insert every pair in order, so that a later
pair with the same key silently overwrites an earlier one. -/
def bmCollect {K V : Type} [DecidableEq K] (l : List (K × V)) : List (K × V) :=
  l.foldl (fun m kv => bmInsert m kv.1 kv.2) []

/-! ## Trace packets (`itm_decode`) and semantic events (`rtic_scope_api`) -/

/-- `itm_decode::ExceptionAction`. -/
inductive ExceptionAction : Type
  | Entered
  | Exited
  | Returned
deriving DecidableEq

/-- `rtic_scope_api::TaskAction`. -/
inductive TaskAction : Type
  | Entered
  | Exited
  | Returned
deriving DecidableEq

/-- `itm_decode::MemoryAccessType`. -/
inductive MemoryAccessType : Type
  | Read
  | Write
deriving DecidableEq

/-- `itm_decode::cortex_m::VectActive`.  A core exception is identified by
the string the code derives from it with `format` + `Debug` (the map key);
an external interrupt by its number `irqn`. -/
inductive VectActive : Type
  | ThreadMode
  | Exception (name : String)
  | Interrupt (irqn : Nat)
deriving DecidableEq

/-- `itm_decode::TracePacket`, restricted to the constructors
`build_event_chunk` distinguishes; every remaining variant falls into the
catch-all `_` arm of the source and is collapsed into `Other`. -/
inductive TracePacket : Type
  | Sync
  | Overflow
  | ExceptionTrace (exception : VectActive) (action : ExceptionAction)
  | DataTraceValue (comparator : Nat) (access : MemoryAccessType) (value : List Nat)
  | Other
deriving DecidableEq

/-- A malformed payload (`itm_decode::MalformedPacket`), kept abstract as its
raw bytes. -/
abbrev MalformedPacket := List Nat

/-- `itm_decode::Timestamp`: `base` and `delta` tick counts plus the two
flags carried through unchanged (`data_relation` kept abstract as a code). -/
structure ItmTimestamp : Type where
  base : Option Nat
  delta : Option Nat
  data_relation : Option Nat
  diverged : Bool
deriving DecidableEq

/-- `itm_decode::TimestampedTracePackets`. -/
structure TimestampedTracePackets : Type where
  timestamp : ItmTimestamp
  packets : List TracePacket
  malformed_packets : List MalformedPacket
deriving DecidableEq

/-- `RecoveryError`, restricted to the variants reachable in the modelled
code (the I/O-, build- and parse-error variants belong to effectful code
outside the model).  `MissingHWLabelExceptionMap` carries the formatted
exception name, `LibLookupFail` the binding whose probe symbol is absent. -/
inductive RecoveryError : Type
  | MissingHWLabelExceptionMap (name : String)
  | MissingHWExceptionMap (irqn : Nat)
  | MissingSWMap (value : List Nat)
  | LibLookupFail (bind : String)
deriving DecidableEq

/-- `rtic_scope_api::EventType`. -/
inductive EventType : Type
  | Overflow
  | Task (name : String) (action : TaskAction)
  | Unknown (packet : TracePacket)
  | Unmappable (packet : TracePacket) (reason : RecoveryError)
  | Invalid (packet : MalformedPacket)
deriving DecidableEq

/-- `rtic_scope_api::Timestamp`; `ts` is an absolute time in nanoseconds. -/
structure ApiTimestamp : Type where
  ts : Int
  data_relation : Option Nat
  diverged : Bool
deriving DecidableEq

/-- `rtic_scope_api::EventChunk`. -/
structure EventChunk : Type where
  timestamp : ApiTimestamp
  events : List EventType
deriving DecidableEq

/-! ## The resolution context (`Metadata`) -/

/-- The two fields of `ManifestProperties` the reconstructor reads: the
configured enter/exit watchpoint (DWT comparator) channels. -/
structure ManifestProperties : Type where
  dwt_enter_id : Nat
  dwt_exit_id : Nat
deriving DecidableEq

/-- `TaskResolveMaps`: the three resolution maps.  A `TaskIdent`/path is a
list of identifier strings. -/
structure TaskResolveMaps : Type where
  exceptions : List (String × List String)
  interrupts : List (Nat × (List String × String))
  sw_assocs : List (Nat × List String)
deriving DecidableEq

/-- `Metadata`: the immutable resolution context; `timestamp` is the session
reference time in nanoseconds, `freq` the trace-clock frequency in Hz. -/
structure Metadata : Type where
  program_name : String
  maps : TaskResolveMaps
  manip : ManifestProperties
  timestamp : Int
  freq : Nat
  comment : Option String
deriving DecidableEq

/-! ## Event reconstruction (`Metadata::build_event_chunk`) -/

/-- Rust `f64::round`: round half away from zero. -/
def rustRound (q : Rat) : Int :=
  if 0 ≤ q then ⌊q + 1/2⌋ else -⌊-q + 1/2⌋

/-- The `resolve_hw_task` closure of `build_event_chunk`. -/
def resolve_hw_task (m : Metadata) : VectActive → Except RecoveryError String
  | .ThreadMode => .ok "ThreadMode"
  | .Exception e =>
    match bmGet m.maps.exceptions e with
    | some t => .ok (String.intercalate "::" t)
    | none => .error (.MissingHWLabelExceptionMap e)
  | .Interrupt irqn =>
    match bmGet m.maps.interrupts irqn with
    | some fb => .ok (String.intercalate "::" fb.1)
    | none => .error (.MissingHWExceptionMap irqn)

/-- The `resolve_sw_task` closure of `build_event_chunk`: error when the
payload holds more than one non-zero byte or is empty, otherwise look the
first byte (`value[0]`) up in the software-task map. -/
def resolve_sw_task (m : Metadata) (value : List Nat) : Except RecoveryError String :=
  if (value.filter (fun b => 0 < b)).length > 1 ∨ value = [] then
    .error (.MissingSWMap value)
  else
    match bmGet m.maps.sw_assocs (value.headD 0) with
    | some v => .ok (String.intercalate "::" v)
    | none => .error (.MissingSWMap value)

/-- `ExceptionAction` → `TaskAction`, as in the `action:` field match. -/
def mapAction : ExceptionAction → TaskAction
  | .Entered => .Entered
  | .Exited => .Exited
  | .Returned => .Returned

/-- One iteration of the packet loop in `build_event_chunk`: the events
pushed for one packet.  The `continue` paths of the source (failed name
resolution, unmatched channel) emit exactly the event pushed before the
`continue`; field evaluation order of the Rust struct literal is respected
(for a data-write the `action` channel match precedes `name` resolution). -/
def classify (m : Metadata) (packet : TracePacket) : List EventType :=
  match packet with
  | .Sync => []
  | .Overflow => [.Overflow]
  | .ExceptionTrace exception action =>
    match resolve_hw_task m exception with
    | .ok name => [.Task name (mapAction action)]
    | .error e => [.Unmappable packet e]
  | .DataTraceValue comparator access value =>
    if access = .Write then
      if comparator = m.manip.dwt_enter_id then
        match resolve_sw_task m value with
        | .ok name => [.Task name .Entered]
        | .error e => [.Unmappable packet e]
      else if comparator = m.manip.dwt_exit_id then
        match resolve_sw_task m value with
        | .ok name => [.Task name .Exited]
        | .error e => [.Unmappable packet e]
      else [.Unknown packet]
    else [.Unknown packet]
  | .Other => [.Unknown packet]

/-- The `for packet in packets.packets.iter()` loop, with its `events`
accumulator. -/
def processLoop (m : Metadata) : List TracePacket → List EventType → List EventType
  | [], events => events
  | p :: rest, events => processLoop m rest (events ++ classify m p)

/-- `Metadata::build_event_chunk`.  `none` models the `expect` panic on an
absent timestamp delta; the malformed packets are appended as `Invalid`
events after the loop. -/
def build_event_chunk (m : Metadata) (packets : TimestampedTracePackets) : Option EventChunk :=
  match packets.timestamp.delta with
  | none => none
  | some delta =>
    let seconds_since : Rat :=
      ((packets.timestamp.base.getD 0 + delta : Nat) : Rat) / (m.freq : Rat)
    let since : Int := rustRound (seconds_since * 1000000000)
    let timestamp : ApiTimestamp :=
      ⟨m.timestamp + since, packets.timestamp.data_relation, packets.timestamp.diverged⟩
    some ⟨timestamp, processLoop m packets.packets []
      ++ packets.malformed_packets.map EventType.Invalid⟩

/-! ## The software-task extractor (`TaskResolver::software_tasks`) -/

/- `syn::Item` / `syn::Stmt`, restricted to the shape `traverse_item`
distinguishes: functions (with their `#[trace]` flag and body statements),
modules (whose content is absent for a bare `mod m;` declaration), and all
other item kinds.  Lists are defunctionalized so that all recursion below is
structural. -/
mutual
inductive Item : Type
  | fn (name : String) (traced : Bool) (stmts : Stmts)
  | md (name : String) (content : OptItems)
  | otherItem

inductive Stmt : Type
  | item (i : Item)
  | otherStmt

inductive Stmts : Type
  | nil
  | cons (s : Stmt) (rest : Stmts)

inductive OptItems : Type
  | none
  | some (items : Items)

inductive Items : Type
  | nil
  | cons (i : Item) (rest : Items)
end

/- `TaskIDGenerator` is the pair `(assocs, id_gen)` threaded through the
traversal; `traverse_item` is the recursive function of `software_tasks`.
The mutable `ctx` stack of the source is passed by value: a push before the
recursive calls and a pop after them become an extended list argument. -/
mutual
def traverse_item (item : Item) (ctx : List String)
    (assocs : List (Nat × List String)) (id_gen : Nat) :
    List (Nat × List String) × Nat :=
  match item with
  | .fn name traced stmts =>
    -- record the full path of the function
    let ctx := ctx ++ [name]
    -- is the function decorated with the trace attribute?
    let st :=
      if traced then (bmInsert assocs id_gen ctx, id_gen + 1) else (assocs, id_gen)
    -- walk down all other nested functions, then return to upper scope
    traverse_stmts stmts ctx st.1 st.2
  | .md name content =>
    match content with
    | .some items => traverse_items items (ctx ++ [name]) assocs id_gen
    | .none => (assocs, id_gen)
  | .otherItem => (assocs, id_gen)

def traverse_stmts (stmts : Stmts) (ctx : List String)
    (assocs : List (Nat × List String)) (id_gen : Nat) :
    List (Nat × List String) × Nat :=
  match stmts with
  | .nil => (assocs, id_gen)
  | .cons (.item i) rest =>
    let st := traverse_item i ctx assocs id_gen
    traverse_stmts rest ctx st.1 st.2
  | .cons .otherStmt rest => traverse_stmts rest ctx assocs id_gen

def traverse_items (items : Items) (ctx : List String)
    (assocs : List (Nat × List String)) (id_gen : Nat) :
    List (Nat × List String) × Nat :=
  match items with
  | .nil => (assocs, id_gen)
  | .cons i rest =>
    let st := traverse_item i ctx assocs id_gen
    traverse_items rest ctx st.1 st.2
end

/-- `TaskResolver::software_tasks`: traverse the parsed application item
with an empty path stack, an empty map and the ID generator at 0. -/
def software_tasks (app : Item) : List (Nat × List String) :=
  (traverse_item app [] [] 0).1

/-! ## The spec-side description of the traversal -/

/- Modelled from the spec: the depth-first pre-order listing of the full
paths of marked task declarations — entering a nested scope (module or
function) pushes its name onto the path stack, a marked function declaration
contributes its current full path, nested children are visited before the
path stack is popped, and only function and module declarations are
traversed. -/
mutual
def markedItem (ctx : List String) : Item → List (List String)
  | .fn name traced stmts =>
    (if traced then [ctx ++ [name]] else []) ++ markedStmts (ctx ++ [name]) stmts
  | .md name (.some items) => markedItems (ctx ++ [name]) items
  | .md _ .none => []
  | .otherItem => []

def markedStmts (ctx : List String) : Stmts → List (List String)
  | .nil => []
  | .cons (.item i) rest => markedItem ctx i ++ markedStmts ctx rest
  | .cons .otherStmt rest => markedStmts ctx rest

def markedItems (ctx : List String) : Items → List (List String)
  | .nil => []
  | .cons i rest => markedItem ctx i ++ markedItems ctx rest
end

/-- Modelled from the spec: assign the next sequential integer, beginning at
`n`, to each path in the pre-order listing. -/
def numberFrom (n : Nat) : List (List String) → List (Nat × List String)
  | [] => []
  | p :: rest => (n, p) :: numberFrom (n + 1) rest

/-! ## The instrumentation macro's ID counter
(`cortex-m-rtic-trace/macros/src/lib.rs`) -/

/-- One expansion of the `trace` attribute: read the global `TRACE_ID`
counter as the task's id, increment it, and abort compilation (here: `none`)
when the incremented counter exceeds `u8::MAX`. -/
def trace_attr_step (trace_id : Nat) : Option (Nat × Nat) :=
  let id := trace_id
  let trace_id := trace_id + 1
  if trace_id > 255 then none else some (id, trace_id)

/-- `n` successive expansions of the `trace` attribute starting from counter
state `s`: the list of assigned ids, or `none` if any expansion aborts. -/
def mark_tasks : Nat → Nat → Option (List Nat)
  | 0, _ => some []
  | n + 1, s =>
    match trace_attr_step s with
    | none => none
    | some (id, s') => (mark_tasks n s').map (id :: ·)

/-! ## The hardware-task extractor (`TaskResolver::hardware_tasks`) -/

/-- The closed catalogue of ARMv7-M core exception names (table B1-4). -/
def known_exceptions : List String :=
  ["Reset", "NMI", "HardFault", "MemManage", "BusFault", "UsageFault",
   "SVCall", "DebugMonitor", "PendSV", "SysTick"]

/-- One parsed `#[task(binds = ...)]` hardware task: its name and the bound
exception/interrupt identifier. -/
structure HardwareTask : Type where
  name : String
  binds : String
deriving DecidableEq

/-- The per-bind loop of `resolve_int_nrs`: look each bind's generated probe
symbol up (the dynamic build/load machinery is abstracted into the symbol
table `symtab`), failing with `LibLookupFail` on the first absent symbol,
exactly as `collect::<Result<Vec<_>, _>>` does. -/
def resolve_int_nrs_list (symtab : String → Option Nat) :
    List String → Except RecoveryError (List (String × Nat))
  | [] => .ok []
  | b :: rest =>
    match symtab b with
    | none => .error (.LibLookupFail b)
    | some n =>
      match resolve_int_nrs_list symtab rest with
      | .error e => .error e
      | .ok l => .ok ((b, n) :: l)

/-- `TaskResolver::resolve_int_nrs`: the successful pairs collected into a
`BTreeMap`. -/
def resolve_int_nrs (symtab : String → Option Nat) (binds : List String) :
    Except RecoveryError (List (String × Nat)) :=
  (resolve_int_nrs_list symtab binds).map bmCollect

/-- The internal half of the `partition` over bound names in
`hardware_tasks`: the binds matching the known-exception catalogue. -/
def int_binds_of (tasks : List HardwareTask) : List String :=
  (tasks.map HardwareTask.binds).filter
    (fun bind => known_exceptions.any (fun int => bind == int))

/-- The external half of the `partition` over bound names in
`hardware_tasks`: the binds deferred to numeric resolution. -/
def ext_binds_of (tasks : List HardwareTask) : List String :=
  (tasks.map HardwareTask.binds).filter
    (fun bind => !known_exceptions.any (fun int => bind == int))

/-- The `int_assocs` collection of `hardware_tasks`: core hardware tasks,
keyed by exception name. -/
def int_assocs_of (tasks : List HardwareTask) : List (String × List String) :=
  bmCollect (tasks.filterMap (fun t =>
    if (int_binds_of tasks).any (fun b => b == t.binds) then
      some (t.binds, ["app", t.name])
    else none))

/-- The `ext_assocs` collection of `hardware_tasks`: device hardware tasks,
keyed by resolved interrupt number. -/
def ext_assocs_of (excpt_nrs : List (String × Nat)) (tasks : List HardwareTask) :
    List (Nat × (List String × String)) :=
  bmCollect (tasks.filterMap (fun t =>
    (bmGet excpt_nrs t.binds).map (fun int => (int, (["app", t.name], t.binds)))))

/-- `TaskResolver::hardware_tasks`: partition the bound names against the
known-exception catalogue, resolve the external ones through the prober
(skipped when there are none), and build the core (name-keyed) and device
(number-keyed) maps. -/
def hardware_tasks (symtab : String → Option Nat) (tasks : List HardwareTask) :
    Except RecoveryError
      (List (String × List String) × List (Nat × (List String × String))) :=
  match if (ext_binds_of tasks).isEmpty then .ok []
    else resolve_int_nrs symtab (ext_binds_of tasks) with
  | .error e => .error e
  | .ok excpt_nrs => .ok (int_assocs_of tasks, ext_assocs_of excpt_nrs tasks)

/-! ## Spec-side timestamp formula -/

/-- Modelled from the spec: `round_to_ns((B+D)/F seconds)` — the duration of
`B + D` ticks at `F` Hz, expressed in nanoseconds and rounded (ties away
from zero, as the code's `f64::round`). -/
def round_to_ns (b d f : Nat) : Int :=
  rustRound (((b : Rat) + (d : Rat)) / (f : Rat) * 1000000000)

/-! ## Concrete fixtures used by witnesses and counterexamples -/

/-- A context whose software-task map holds ID 0 only, with enter channel 1
and exit channel 2. -/
def c2md : Metadata :=
  ⟨"app", ⟨[], [], [(0, ["app", "task0"])]⟩, ⟨1, 2⟩, 0, 1000000, none⟩

/-- A context with reference timestamp 2024-01-01T00:00:00Z (in nanoseconds
since the epoch) and a 1 MHz trace clock. -/
def c4md : Metadata :=
  ⟨"app", ⟨[], [], []⟩, ⟨1, 2⟩, 1704067200000000000, 1000000, none⟩

/-- A context with empty resolution maps. -/
def c5md : Metadata := ⟨"app", ⟨[], [], []⟩, ⟨1, 2⟩, 0, 1, none⟩

/-- A context that can resolve the `SysTick` core exception. -/
def c6md : Metadata :=
  ⟨"app", ⟨[("SysTick", ["app", "systick"])], [], []⟩, ⟨1, 2⟩, 0, 1, none⟩

/-- A batch with two well-formed packets and one malformed payload. -/
def tp6 : TimestampedTracePackets :=
  ⟨⟨none, some 5, none, false⟩,
   [.Overflow, .ExceptionTrace (.Exception "SysTick") .Entered],
   [[9, 9]]⟩

/-- A context whose enter and exit watchpoint channels coincide (both 1). -/
def c9md : Metadata := ⟨"app", ⟨[], [], [(7, ["app", "t"])]⟩, ⟨1, 1⟩, 0, 1, none⟩

/-- A probe symbol table resolving only `EXTI1`, and a single device-bound
task list. -/
def symtab8 : String → Option Nat := fun b => if b = "EXTI1" then some 7 else none

/-- One hardware task bound to the device interrupt `EXTI1`. -/
def tasks8 : List HardwareTask := [⟨"a", "EXTI1"⟩]

/-- A probe symbol table with no symbols. -/
def symtab10 : String → Option Nat := fun _ => none

/-- `mod app` with three functions: two marked directly, one marked inside
an unmarked function. -/
def sampleApp : Item :=
  .md "app" (.some (.cons
    (.fn "t1" true (.cons (.item (.fn "t2" true .nil)) .nil))
    (.cons (.fn "t3" false (.cons (.item (.fn "t4" true .nil)) .nil)) .nil)))

/-! ## Helper lemmas: sequential numbering -/

theorem numberFrom_append (n : Nat) (l1 l2 : List (List String)) :
    numberFrom n (l1 ++ l2) = numberFrom n l1 ++ numberFrom (n + l1.length) l2 := by
  induction l1 generalizing n with
  | nil => simp [numberFrom]
  | cons p rest ih =>
    simp [numberFrom, ih (n + 1), Nat.add_comm, Nat.add_assoc, Nat.add_left_comm]

theorem mem_numberFrom_lt (n : Nat) (l : List (List String)) (p : Nat × List String)
    (hp : p ∈ numberFrom n l) : p.1 < n + l.length := by
  induction l generalizing n with
  | nil => simp [numberFrom] at hp
  | cons q rest ih =>
    simp only [numberFrom, List.mem_cons] at hp
    rcases hp with h | h
    · subst h; simp only [List.length_cons]; omega
    · have := ih (n + 1) h
      simp only [List.length_cons]
      omega

theorem numberFrom_map_fst (n : Nat) (l : List (List String)) :
    (numberFrom n l).map Prod.fst = List.range' n l.length := by
  induction l generalizing n with
  | nil => simp [numberFrom]
  | cons p rest ih => simp [numberFrom, ih, List.range'_succ]

/-! ## Helper lemmas: the association-list map -/

theorem bmInsert_fresh {V : Type} (assocs : List (Nat × V)) (n : Nat) (v : V)
    (h : ∀ p ∈ assocs, p.1 < n) : bmInsert assocs n v = assocs ++ [(n, v)] := by
  induction assocs with
  | nil => rfl
  | cons q rest ih =>
    have hq : q.1 < n := h q (by simp)
    have hne : n ≠ q.1 := by omega
    cases q with
    | mk k v' =>
      simp only [bmInsert, if_neg hne, List.cons_append]
      rw [ih (fun p hp => h p (by simp [hp]))]

theorem bmGet_bmInsert_self {K V : Type} [DecidableEq K] (m : List (K × V)) (k : K) (v : V) :
    bmGet (bmInsert m k v) k = some v := by
  induction m with
  | nil => simp [bmInsert, bmGet]
  | cons q rest ih =>
    by_cases h : k = q.1
    · simp [bmInsert, bmGet, h]
    · simp [bmInsert, bmGet, h, ih]

theorem bmGet_bmInsert_ne {K V : Type} [DecidableEq K] (m : List (K × V)) (k k' : K) (v : V)
    (h : k' ≠ k) : bmGet (bmInsert m k v) k' = bmGet m k' := by
  induction m with
  | nil => simp [bmInsert, bmGet, h]
  | cons q rest ih =>
    by_cases hk : k = q.1
    · simp only [bmInsert, if_pos hk, bmGet, if_neg h, ← hk, if_neg h]
    · simp only [bmInsert, if_neg hk, bmGet]
      by_cases hq : k' = q.1
      · simp [hq]
      · simp [hq, ih]

theorem mem_bmInsert {K V : Type} [DecidableEq K] (m : List (K × V)) (k : K) (v : V)
    (p : K × V) (hp : p ∈ bmInsert m k v) : p ∈ m ∨ p = (k, v) := by
  induction m with
  | nil => simpa [bmInsert] using hp
  | cons q rest ih =>
    by_cases h : k = q.1
    · rw [bmInsert, if_pos h] at hp
      rcases List.mem_cons.1 hp with h' | h'
      · exact Or.inr h'
      · exact Or.inl (List.mem_cons.2 (Or.inr h'))
    · rw [bmInsert, if_neg h] at hp
      rcases List.mem_cons.1 hp with h' | h'
      · exact Or.inl (List.mem_cons.2 (Or.inl h'))
      · rcases ih h' with h'' | h''
        · exact Or.inl (List.mem_cons.2 (Or.inr h''))
        · exact Or.inr h''

theorem mem_foldl_bmInsert {K V : Type} [DecidableEq K] (l : List (K × V))
    (init : List (K × V)) (p : K × V)
    (hp : p ∈ l.foldl (fun m kv => bmInsert m kv.1 kv.2) init) : p ∈ init ∨ p ∈ l := by
  induction l generalizing init with
  | nil => exact Or.inl hp
  | cons q rest ih =>
    rw [List.foldl_cons] at hp
    rcases ih (bmInsert init q.1 q.2) hp with h | h
    · rcases mem_bmInsert init q.1 q.2 p h with h' | h'
      · exact Or.inl h'
      · exact Or.inr (List.mem_cons.2 (Or.inl (by cases q; exact h')))
    · exact Or.inr (List.mem_cons.2 (Or.inr h))

theorem mem_bmCollect {K V : Type} [DecidableEq K] (l : List (K × V)) (p : K × V)
    (hp : p ∈ bmCollect l) : p ∈ l := by
  rcases mem_foldl_bmInsert l [] p hp with h | h
  · simp at h
  · exact h

theorem isSome_bmGet_foldl {K V : Type} [DecidableEq K] (l : List (K × V))
    (init : List (K × V)) (k : K) :
    (bmGet (l.foldl (fun m kv => bmInsert m kv.1 kv.2) init) k).isSome =
      ((bmGet init k).isSome || k ∈ l.map Prod.fst) := by
  induction l generalizing init with
  | nil => simp
  | cons q rest ih =>
    rw [List.foldl_cons, ih]
    by_cases h : k = q.1
    · subst h
      simp [bmGet_bmInsert_self]
    · have hb : (k == q.1) = false := by
        simp only [beq_eq_false_iff_ne, ne_eq]
        exact h
      simp [bmGet_bmInsert_ne init q.1 k q.2 h, hb]

theorem isSome_bmGet_bmCollect {K V : Type} [DecidableEq K] (l : List (K × V)) (k : K) :
    (bmGet (bmCollect l) k).isSome = (k ∈ l.map Prod.fst : Bool) := by
  rw [bmCollect, isSome_bmGet_foldl]
  simp [bmGet]

theorem bmGet_mem {K V : Type} [DecidableEq K] (m : List (K × V)) (k : K) (v : V)
    (h : bmGet m k = some v) : (k, v) ∈ m := by
  induction m with
  | nil => simp [bmGet] at h
  | cons q rest ih =>
    by_cases hk : k = q.1
    · rw [bmGet, if_pos hk] at h
      cases q
      simp_all
    · rw [bmGet, if_neg hk] at h
      exact List.mem_cons.2 (Or.inr (ih h))

/-! ## Helper lemmas: the traversal assigns pre-order ids -/

mutual
theorem traverse_item_eq (item : Item) (ctx : List String)
    (assocs : List (Nat × List String)) (n : Nat) (h : ∀ p ∈ assocs, p.1 < n) :
    traverse_item item ctx assocs n =
      (assocs ++ numberFrom n (markedItem ctx item), n + (markedItem ctx item).length) := by
  cases item with
  | fn name traced stmts =>
    cases traced with
    | true =>
      have h1 : ∀ p ∈ bmInsert assocs n (ctx ++ [name]), p.1 < n + 1 := by
        rw [bmInsert_fresh assocs n _ h]
        intro p hp
        rcases List.mem_append.1 hp with h' | h'
        · have := h p h'; omega
        · simp at h'; subst h'; omega
      have h2 := traverse_stmts_eq stmts (ctx ++ [name]) _ (n + 1) h1
      rw [bmInsert_fresh assocs n _ h] at h2
      simp [traverse_item, markedItem, h2, bmInsert_fresh assocs n _ h,
        numberFrom, List.append_assoc, Prod.ext_iff]
      omega
    | false =>
      have h2 := traverse_stmts_eq stmts (ctx ++ [name]) assocs n h
      simp [traverse_item, markedItem, h2, numberFrom]
  | md name content =>
    cases content with
    | some items =>
      have h2 := traverse_items_eq items (ctx ++ [name]) assocs n h
      simpa [traverse_item, markedItem] using h2
    | none => simp [traverse_item, markedItem, numberFrom]
  | otherItem => simp [traverse_item, markedItem, numberFrom]

theorem traverse_stmts_eq (stmts : Stmts) (ctx : List String)
    (assocs : List (Nat × List String)) (n : Nat) (h : ∀ p ∈ assocs, p.1 < n) :
    traverse_stmts stmts ctx assocs n =
      (assocs ++ numberFrom n (markedStmts ctx stmts), n + (markedStmts ctx stmts).length) := by
  cases stmts with
  | nil => simp [traverse_stmts, markedStmts, numberFrom]
  | cons s rest =>
    cases s with
    | item i =>
      have h1 := traverse_item_eq i ctx assocs n h
      have h2 : ∀ p ∈ assocs ++ numberFrom n (markedItem ctx i),
          p.1 < n + (markedItem ctx i).length := by
        intro p hp
        rcases List.mem_append.1 hp with h' | h'
        · have := h p h'; omega
        · exact mem_numberFrom_lt n _ p h'
      have h3 := traverse_stmts_eq rest ctx _ _ h2
      simp only [traverse_stmts, h1]
      rw [h3]
      simp [markedStmts, numberFrom_append, List.append_assoc, Nat.add_assoc]
    | otherStmt =>
      have h3 := traverse_stmts_eq rest ctx assocs n h
      simpa [traverse_stmts, markedStmts] using h3

theorem traverse_items_eq (items : Items) (ctx : List String)
    (assocs : List (Nat × List String)) (n : Nat) (h : ∀ p ∈ assocs, p.1 < n) :
    traverse_items items ctx assocs n =
      (assocs ++ numberFrom n (markedItems ctx items), n + (markedItems ctx items).length) := by
  cases items with
  | nil => simp [traverse_items, markedItems, numberFrom]
  | cons i rest =>
    have h1 := traverse_item_eq i ctx assocs n h
    have h2 : ∀ p ∈ assocs ++ numberFrom n (markedItem ctx i),
        p.1 < n + (markedItem ctx i).length := by
      intro p hp
      rcases List.mem_append.1 hp with h' | h'
      · have := h p h'; omega
      · exact mem_numberFrom_lt n _ p h'
    have h3 := traverse_items_eq rest ctx _ _ h2
    simp only [traverse_items, h1]
    rw [h3]
    simp [markedItems, numberFrom_append, List.append_assoc, Nat.add_assoc]
end

/-- The traversal on the sample application: pre-order ids 0, 1, 2. -/
theorem software_tasks_sampleApp :
    software_tasks sampleApp =
      [(0, ["app", "t1"]), (1, ["app", "t1", "t2"]), (2, ["app", "t3", "t4"])] := by
  decide

/-! ## Helper lemmas: the macro's ID counter -/

theorem mark_tasks_eq (n s : Nat) :
    mark_tasks n s = if s + n ≤ 255 ∨ n = 0 then some (List.range' s n) else none := by
  induction n generalizing s with
  | zero => simp [mark_tasks, List.range']
  | succ k ih =>
    simp only [mark_tasks, trace_attr_step]
    by_cases hs : s + 1 > 255
    · rw [if_pos hs, if_neg (by omega)]
    · rw [if_neg hs]
      show (mark_tasks k (s + 1)).map (s :: ·) = _
      rw [ih (s + 1)]
      by_cases hk : s + 1 + k ≤ 255 ∨ k = 0
      · rw [if_pos hk, if_pos (by omega)]
        simp [List.range'_succ]
      · rw [if_neg hk, if_neg (by omega)]
        rfl

/-! ## Helper lemmas: the packet loop -/

theorem processLoop_eq (m : Metadata) (ps : List TracePacket) (acc : List EventType) :
    processLoop m ps acc = acc ++ ps.flatMap (classify m) := by
  induction ps generalizing acc with
  | nil => simp [processLoop]
  | cons p rest ih => simp [processLoop, ih, List.append_assoc]

/-! ## Helper lemmas: probe resolution -/

theorem resolve_list_isOk (symtab : String → Option Nat) (binds : List String) :
    (resolve_int_nrs_list symtab binds).isOk = true ↔
      ∀ b ∈ binds, (symtab b).isSome := by
  induction binds with
  | nil => simp [resolve_int_nrs_list, Except.isOk, Except.toBool]
  | cons b rest ih =>
    cases hs : symtab b with
    | none =>
      simp only [resolve_int_nrs_list, hs]
      constructor
      · intro h; cases h
      · intro h
        have := h b (by simp)
        rw [hs] at this
        cases this
    | some n =>
      cases hr : resolve_int_nrs_list symtab rest with
      | error e =>
        simp only [resolve_int_nrs_list, hs, hr]
        constructor
        · intro h; cases h
        · intro h
          have : (resolve_int_nrs_list symtab rest).isOk = true :=
            ih.2 (fun b' hb' => h b' (by simp [hb']))
          rw [hr] at this
          cases this
      | ok l =>
        simp only [resolve_int_nrs_list, hs, hr]
        constructor
        · intro _ b' hb'
          rcases List.mem_cons.1 hb' with h' | h'
          · subst h'; simp [hs]
          · have : (resolve_int_nrs_list symtab rest).isOk = true := by
              rw [hr]; rfl
            exact (ih.1 this) b' h'
        · intro _; rfl

theorem resolve_list_ok_spec (symtab : String → Option Nat) (binds : List String)
    (l : List (String × Nat)) (h : resolve_int_nrs_list symtab binds = .ok l) :
    (∀ p ∈ l, symtab p.1 = some p.2) ∧ (∀ b ∈ binds, b ∈ l.map Prod.fst) := by
  induction binds generalizing l with
  | nil =>
    rw [resolve_int_nrs_list] at h
    cases h
    simp
  | cons b rest ih =>
    rw [resolve_int_nrs_list] at h
    cases hs : symtab b with
    | none => rw [hs] at h; cases h
    | some n =>
      rw [hs] at h
      cases hr : resolve_int_nrs_list symtab rest with
      | error e => rw [hr] at h; cases h
      | ok l' =>
        rw [hr] at h
        cases h
        obtain ⟨ih1, ih2⟩ := ih l' hr
        constructor
        · intro p hp
          rcases List.mem_cons.1 hp with h' | h'
          · subst h'; exact hs
          · exact ih1 p h'
        · intro b' hb'
          rcases List.mem_cons.1 hb' with h' | h'
          · subst h'; simp
          · simp only [List.map_cons, List.mem_cons]
            exact Or.inr (ih2 b' h')

/-! ## Claim theorems -/

/-- C1: the software-task extractor assigns IDs by a depth-first pre-order
traversal from the application root — entering a nested scope pushes its
name, a marked function declaration receives the next sequential integer
beginning at 0 together with its current full path, children are visited
before the pop, and only function and module declarations are traversed:
the code's `software_tasks` equals the sequential numbering, from 0, of the
spec's pre-order listing of marked paths. -/
theorem C1_traversal_assigns_preorder_ids (app : Item) :
    software_tasks app = numberFrom 0 (markedItem [] app) := by
  have h := traverse_item_eq app [] [] 0 (by simp)
  simp [software_tasks, h]

/-- C2 counterexample: the payload `[0]` contains zero non-zero bytes, yet
reconstruction yields a Task event (for software task 0), not an Unmappable
event — refuting the claim that zero non-zero bytes always yield
Unmappable. -/
theorem C2_counterexample :
    (([0] : List Nat).filter (fun b => 0 < b)).length = 0 ∧
      classify c2md (.DataTraceValue 1 .Write [0]) =
        [.Task "app::task0" .Entered] :=
  ⟨rfl, rfl⟩

/-- C2 (amended): for a write-direction data-write packet on a configured
enter/exit channel, a payload that is empty or has more than one non-zero
byte yields an Unmappable event; otherwise the payload's *first* byte is
looked up in the software-task map — a miss yields Unmappable, a hit yields
a Task event with the resolved path and the channel-determined action. -/
theorem C2_sw_task_resolution (m : Metadata) (comparator : Nat) (value : List Nat)
    (hc : comparator = m.manip.dwt_enter_id ∨ comparator = m.manip.dwt_exit_id) :
    classify m (.DataTraceValue comparator .Write value) =
      if (value.filter (fun b => 0 < b)).length > 1 ∨ value = [] then
        [.Unmappable (.DataTraceValue comparator .Write value) (.MissingSWMap value)]
      else
        match bmGet m.maps.sw_assocs (value.headD 0) with
        | none =>
          [.Unmappable (.DataTraceValue comparator .Write value) (.MissingSWMap value)]
        | some p =>
          [.Task (String.intercalate "::" p)
            (if comparator = m.manip.dwt_enter_id then .Entered else .Exited)] := by
  by_cases hbad : (value.filter (fun b => 0 < b)).length > 1 ∨ value = []
  · rw [if_pos hbad]
    have hsw : resolve_sw_task m value = .error (.MissingSWMap value) := by
      rw [resolve_sw_task, if_pos hbad]
    by_cases h1 : comparator = m.manip.dwt_enter_id
    · simp [classify, h1, hsw]
    · have h2 : comparator = m.manip.dwt_exit_id := hc.resolve_left h1
      simp [classify, h1, h2, hsw]
  · rw [if_neg hbad]
    cases hget : bmGet m.maps.sw_assocs (value.headD 0) with
    | none =>
      have hsw : resolve_sw_task m value = .error (.MissingSWMap value) := by
        rw [resolve_sw_task, if_neg hbad, hget]
      by_cases h1 : comparator = m.manip.dwt_enter_id
      · simp [classify, h1, hsw]
      · have h2 : comparator = m.manip.dwt_exit_id := hc.resolve_left h1
        simp [classify, h1, h2, hsw]
    | some p =>
      have hsw : resolve_sw_task m value = .ok (String.intercalate "::" p) := by
        rw [resolve_sw_task, if_neg hbad, hget]
      by_cases h1 : comparator = m.manip.dwt_enter_id
      · simp [classify, h1, hsw]
      · have h2 : comparator = m.manip.dwt_exit_id := hc.resolve_left h1
        simp [classify, h1, h2, hsw]
        split <;> rfl

/-- C2 witness: the amended rule applied at the enter channel with payload
`[0]` and a map holding ID 0. -/
theorem C2_sw_task_resolution_witness :
    classify c2md (.DataTraceValue 1 .Write [0]) = [.Task "app::task0" .Entered] := by
  rw [C2_sw_task_resolution c2md 1 [0] (Or.inl rfl)]
  rfl

/-- C3 counterexample: marking 256 tasks is rejected by the instrumentation
macro (the 256th expansion panics), refuting "n ≤ 256 permitted". -/
theorem C3_counterexample : mark_tasks 256 0 = none := by
  simp [mark_tasks_eq]

/-- C3 (amended): the software-task map's ID set is exactly
`{0, ..., n-1}` for `n` marked tasks, with `n ≤ 255` permitted; attempting
to mark a 256th task is rejected by the instrumentation macro. -/
theorem C3_id_density (app : Item) (n : Nat) :
    (software_tasks app).map Prod.fst = List.range (markedItem [] app).length ∧
    mark_tasks n 0 = if n ≤ 255 then some (List.range n) else none := by
  constructor
  · have h := traverse_item_eq app [] [] 0 (by simp)
    simp [software_tasks, h, numberFrom_map_fst, List.range_eq_range']
  · rw [mark_tasks_eq]
    by_cases h : n ≤ 255
    · rw [if_pos (by omega), if_pos h, List.range_eq_range']
    · rw [if_neg (by omega), if_neg h]

/-- C4: for a batch with reference timestamp T0, frequency F, base ticks B
(0 when absent) and delta ticks D, the chunk's absolute timestamp is
T0 + round_to_ns((B+D)/F seconds).  (The code's `f64` arithmetic is
modelled as exact rational arithmetic.) -/
theorem C4_timestamp_arithmetic (m : Metadata) (tp : TimestampedTracePackets) (d : Nat)
    (hd : tp.timestamp.delta = some d) :
    (build_event_chunk m tp).map (fun c => c.timestamp.ts) =
      some (m.timestamp + round_to_ns (tp.timestamp.base.getD 0) d m.freq) := by
  simp [build_event_chunk, hd, round_to_ns, Nat.cast_add]

/-- C4 witness: T0 = 2024-01-01T00:00:00Z, F = 1 MHz, B absent,
D = 2 500 000 ticks gives T0 + 2.5 s. -/
theorem C4_timestamp_arithmetic_witness :
    (build_event_chunk c4md ⟨⟨none, some 2500000, none, false⟩, [], []⟩).map
        (fun c => c.timestamp.ts) = some 1704067202500000000 := by
  have h := C4_timestamp_arithmetic c4md ⟨⟨none, some 2500000, none, false⟩, [], []⟩
    2500000 rfl
  rw [h]
  have h2 : round_to_ns ((none : Option Nat).getD 0) 2500000 c4md.freq = 2500000000 := by
    show round_to_ns 0 2500000 1000000 = 2500000000
    rw [round_to_ns, rustRound]
    norm_num
  rw [h2]
  rfl

/-- C5: an exception-transition packet citing an exception name or interrupt
number absent from the resolution maps produces exactly one Unmappable event
carrying the packet and a reason, the batch still succeeds, and every
subsequent packet is classified normally. -/
theorem C5_unmappable_on_miss (m : Metadata) (exception : VectActive)
    (action : ExceptionAction)
    (h1 : ∀ name, exception = .Exception name → bmGet m.maps.exceptions name = none)
    (h2 : ∀ irqn, exception = .Interrupt irqn → bmGet m.maps.interrupts irqn = none)
    (h3 : exception ≠ .ThreadMode) :
    ∃ r, classify m (.ExceptionTrace exception action)
        = [.Unmappable (.ExceptionTrace exception action) r] ∧
      ∀ base d dr dv rest mal,
        (build_event_chunk m ⟨⟨base, some d, dr, dv⟩,
            .ExceptionTrace exception action :: rest, mal⟩).map EventChunk.events =
          some (.Unmappable (.ExceptionTrace exception action) r ::
            (rest.flatMap (classify m) ++ mal.map .Invalid)) := by
  have hcl : ∃ r, classify m (.ExceptionTrace exception action)
      = [.Unmappable (.ExceptionTrace exception action) r] := by
    cases exception with
    | ThreadMode => exact absurd rfl h3
    | Exception name =>
      exact ⟨.MissingHWLabelExceptionMap name, by
        simp [classify, resolve_hw_task, h1 name rfl]⟩
    | Interrupt irqn =>
      exact ⟨.MissingHWExceptionMap irqn, by
        simp [classify, resolve_hw_task, h2 irqn rfl]⟩
  obtain ⟨r, hr⟩ := hcl
  refine ⟨r, hr, ?_⟩
  intro base d dr dv rest mal
  simp [build_event_chunk, processLoop_eq, hr]

/-- C5 witness: a miss on the core exception name `NMI` against empty maps
yields a single event. -/
theorem C5_unmappable_on_miss_witness :
    (classify c5md (.ExceptionTrace (.Exception "NMI") .Entered)).length = 1 := by
  obtain ⟨r, hr, _⟩ := C5_unmappable_on_miss c5md (.Exception "NMI") .Entered
    (fun _ _ => rfl) (fun irqn h => VectActive.noConfusion h)
    (fun h => VectActive.noConfusion h)
  rw [hr]
  rfl

/-- C6: in every chunk the events of well-formed packets come first in
source-packet order, and one Invalid event per malformed payload is appended
afterwards in the malformed payloads' own order. -/
theorem C6_output_ordering (m : Metadata) (tp : TimestampedTracePackets) (d : Nat)
    (hd : tp.timestamp.delta = some d) :
    (build_event_chunk m tp).map EventChunk.events =
      some (tp.packets.flatMap (classify m)
        ++ tp.malformed_packets.map EventType.Invalid) := by
  simp [build_event_chunk, hd, processLoop_eq]

/-- C6 witness: 2 well-formed packets plus 1 malformed payload yield 3
events with the Invalid event last. -/
theorem C6_output_ordering_witness :
    (build_event_chunk c6md tp6).map EventChunk.events =
      some [.Overflow, .Task "app::systick" .Entered, .Invalid [9, 9]] := by
  rw [C6_output_ordering c6md tp6 5 rfl]
  rfl

/-- C7: event reconstruction fails if and only if the batch's mandatory
clock delta is absent; no packet content is ever fatal. -/
theorem C7_fatal_iff_missing_delta (m : Metadata) (tp : TimestampedTracePackets) :
    build_event_chunk m tp = none ↔ tp.timestamp.delta = none := by
  cases h : tp.timestamp.delta <;> simp [build_event_chunk, h]

/-- C8: assembling the hardware-task maps fails exactly when some unresolved
(device) binding name is absent from the prober's symbol table, and on
success every device-bound task's resolved interrupt number is a key of the
device map — no silent partial map. -/
theorem C8_device_map_assembly (symtab : String → Option Nat) (tasks : List HardwareTask) :
    ((hardware_tasks symtab tasks).isOk = true ↔
      ∀ b ∈ ext_binds_of tasks, (symtab b).isSome) ∧
    (∀ ia ea, hardware_tasks symtab tasks = .ok (ia, ea) →
      ∀ t ∈ tasks, t.binds ∈ ext_binds_of tasks →
        ∃ irqn, symtab t.binds = some irqn ∧ (bmGet ea irqn).isSome) := by
  by_cases hemp : (ext_binds_of tasks).isEmpty
  · have heq : hardware_tasks symtab tasks
        = .ok (int_assocs_of tasks, ext_assocs_of [] tasks) := by
      rw [hardware_tasks, if_pos hemp]
    constructor
    · rw [heq]
      simp only [Except.isOk, Except.toBool, true_iff]
      intro b hb
      rw [List.isEmpty_iff] at hemp
      rw [hemp] at hb
      cases hb
    · intro ia ea hok t ht hbt
      rw [List.isEmpty_iff] at hemp
      rw [hemp] at hbt
      cases hbt
  · have heq : hardware_tasks symtab tasks =
        match resolve_int_nrs symtab (ext_binds_of tasks) with
        | .error e => .error e
        | .ok excpt_nrs => .ok (int_assocs_of tasks, ext_assocs_of excpt_nrs tasks) := by
      rw [hardware_tasks, if_neg hemp]
    cases hr : resolve_int_nrs_list symtab (ext_binds_of tasks) with
    | error e =>
      have hre : resolve_int_nrs symtab (ext_binds_of tasks) = .error e := by
        rw [resolve_int_nrs, hr]; rfl
      rw [hre] at heq
      constructor
      · rw [heq]
        constructor
        · intro h
          simp [Except.isOk, Except.toBool] at h
        · intro hall
          have : (resolve_int_nrs_list symtab (ext_binds_of tasks)).isOk = true :=
            (resolve_list_isOk symtab _).2 hall
          rw [hr] at this
          simp [Except.isOk, Except.toBool] at this
      · intro ia ea hok
        rw [heq] at hok
        cases hok
    | ok l =>
      have hre : resolve_int_nrs symtab (ext_binds_of tasks) = .ok (bmCollect l) := by
        rw [resolve_int_nrs, hr]; rfl
      rw [hre] at heq
      obtain ⟨hl1, hl2⟩ := resolve_list_ok_spec symtab _ l hr
      constructor
      · rw [heq]
        simp only [Except.isOk, Except.toBool, true_iff]
        intro b hb
        have hok : (resolve_int_nrs_list symtab (ext_binds_of tasks)).isOk = true := by
          rw [hr]; rfl
        exact (resolve_list_isOk symtab _).1 hok b hb
      · intro ia ea hok t ht hbt
        rw [heq] at hok
        cases hok
        have hkey : (bmGet (bmCollect l) t.binds).isSome = true := by
          rw [isSome_bmGet_bmCollect]
          simp only [decide_eq_true_eq]
          exact hl2 t.binds hbt
        obtain ⟨irqn, hirqn⟩ := Option.isSome_iff_exists.1 hkey
        have hsym : symtab t.binds = some irqn :=
          hl1 (t.binds, irqn) (mem_bmCollect l _ (bmGet_mem _ _ _ hirqn))
        refine ⟨irqn, hsym, ?_⟩
        rw [ext_assocs_of, isSome_bmGet_bmCollect]
        simp only [decide_eq_true_eq, List.mem_map]
        refine ⟨(irqn, (["app", t.name], t.binds)), ?_, rfl⟩
        exact List.mem_filterMap.2 ⟨t, ht, by rw [hirqn]; rfl⟩

/-- C8 witness: with a symbol table resolving `EXTI1`, assembling the single
`EXTI1`-bound task succeeds. -/
theorem C8_device_map_assembly_witness :
    (hardware_tasks symtab8 tasks8).isOk = true :=
  (C8_device_map_assembly symtab8 tasks8).1.2 (by decide)

/-- C9: when the configured enter and exit channels are equal, every Task
event produced from a write-direction data-write packet carries the action
Entered (the enter channel is matched first), so no Exited event can be
produced from such packets. -/
theorem C9_shared_channel_entered (m : Metadata)
    (he : m.manip.dwt_enter_id = m.manip.dwt_exit_id)
    (comparator : Nat) (value : List Nat) (name : String) (a : TaskAction)
    (hmem : .Task name a ∈ classify m (.DataTraceValue comparator .Write value)) :
    a = .Entered := by
  by_cases h1 : comparator = m.manip.dwt_enter_id
  · cases hr : resolve_sw_task m value with
    | ok n => simp [classify, h1, hr] at hmem; exact hmem.2
    | error e => simp [classify, h1, hr] at hmem
  · have h2 : ¬ comparator = m.manip.dwt_exit_id := by rw [← he]; exact h1
    simp [classify, h1, h2] at hmem

/-- C9 witness: with enter = exit = 1, the write of ID 7 on channel 1
produces a Task event whose action is Entered. -/
theorem C9_shared_channel_entered_witness :
    c9md.manip.dwt_enter_id = c9md.manip.dwt_exit_id ∧
    EventType.Task "app::t" TaskAction.Entered
      ∈ classify c9md (.DataTraceValue 1 .Write [7]) ∧
    TaskAction.Entered = TaskAction.Entered :=
  ⟨rfl, by decide,
    C9_shared_channel_entered c9md rfl 1 [7] "app::t" .Entered (by decide)⟩

/-- C10: when two hardware tasks bind the same core exception name, or two
device bindings resolve to the same interrupt number, the resulting map
holds a single entry for that key — the later association silently
overwrites the earlier one and no error is reported. -/
theorem C10_duplicate_bind_overwrites (symtab : String → Option Nat)
    (n1 n2 bind : String) (k : Nat) :
    (known_exceptions.any (fun int => bind == int) = true →
      hardware_tasks symtab [⟨n1, bind⟩, ⟨n2, bind⟩]
        = .ok ([(bind, ["app", n2])], [])) ∧
    (known_exceptions.any (fun int => bind == int) = false →
      symtab bind = some k →
      hardware_tasks symtab [⟨n1, bind⟩, ⟨n2, bind⟩]
        = .ok ([], [(k, (["app", n2], bind))])) := by
  constructor
  · intro hb
    have hint : int_binds_of [⟨n1, bind⟩, ⟨n2, bind⟩] = [bind, bind] := by
      simp [int_binds_of, hb]
    have hext : ext_binds_of [⟨n1, bind⟩, ⟨n2, bind⟩] = [] := by
      simp [ext_binds_of, hb]
    rw [hardware_tasks, hext]
    simp only [List.isEmpty_nil, if_pos]
    rw [int_assocs_of, hint]
    simp [ext_assocs_of, bmCollect, bmInsert, bmGet]
  · intro hb hs
    have hint : int_binds_of [⟨n1, bind⟩, ⟨n2, bind⟩] = [] := by
      simp [int_binds_of, hb]
    have hext : ext_binds_of [⟨n1, bind⟩, ⟨n2, bind⟩] = [bind, bind] := by
      simp [ext_binds_of, hb]
    rw [hardware_tasks, hext]
    have hres : resolve_int_nrs symtab [bind, bind] = .ok [(bind, k)] := by
      simp [resolve_int_nrs, resolve_int_nrs_list, hs, Except.map, bmCollect, bmInsert]
    simp only [List.isEmpty_cons, if_neg, Bool.false_eq_true, ite_false, hres]
    rw [int_assocs_of, hint]
    simp [ext_assocs_of, bmCollect, bmInsert, bmGet]

/-- C10 witness: two tasks bound to `SysTick` produce a single-entry core
map holding the second task, with no error. -/
theorem C10_duplicate_bind_overwrites_witness :
    hardware_tasks symtab10 [⟨"a", "SysTick"⟩, ⟨"b", "SysTick"⟩]
      = .ok ([("SysTick", ["app", "b"])], []) :=
  (C10_duplicate_bind_overwrites symtab10 "a" "b" "SysTick" 0).1 (by decide)

end RticScope
